import Mathlib

/-!
Verification development for the Bricks repository.

The definitions below are shallow embeddings of the C++ sources:

* `Bricks.CircularBuffer`  — `src/DataStructure/Buffer/CircularBuffer.h`
  (`namespace ra::bricks`, the variant actually included by the dynamic
  state machine); the fixed-size array `m_Buffer` is a `List` of length
  `BuffSize`, the `uint32_t` fields are `Nat` (all index arithmetic is
  done modulo `BuffSize`, exactly as in the source).
* `Bricks.StateMachine`    — the `DynamicStateMachine` of
  `src/unnamed/part_002` (`namespace ra::bricks::StateMachine`).
  Raw state pointers `IDynamicState*` are `Ptr := Option Nat`
  (`none` models `nullptr`, `some h` a pointer with address `h`).
  Both `OwningPolicy` and `NonOwningPolicy` store one handle and have
  `Get` return it, so the policy field is a single `Ptr`.
  `OnEnter` / `OnExit` / `Update` calls are recorded as events; the
  body of a state's `Update` is modelled by an explicit script of
  nested calls into the machine followed by the returned pair
  (the `OnEnter` / `OnExit` bodies themselves are passive).
* `Bricks.ra_version`      — `src/unnamed/part_000` (version packing).
* `Bricks.CachedV1` / `Bricks.CachedV2` — the two `CachedBuffer`
  variants concatenated in `src/DataStructure/Buffer/CachedBuffer.h`;
  byte spans are `List Nat`, `memcpy` into the fixed array is
  take/append/drop splicing at the destination offset, and the store
  callback `uint32_t (*)(span, void*)` is a function from the passed
  bytes to the reported written count.
-/

namespace Bricks

/-! ### Circular buffer (`ra::bricks::CircularBuffer<T, BuffSize>`) -/

structure CircularBuffer (T : Type) (BuffSize : Nat) where
  m_Buffer : List T
  m_Head : Nat
  m_Tail : Nat
  m_Size : Nat
deriving DecidableEq, Repr

namespace CircularBuffer

variable {T : Type} {BuffSize : Nat}

/-- Construction state of the buffer: array default-filled, all counters 0
(`m_Head = 0`, `m_Tail = 0`, `m_Size = 0` member initializers). -/
def mkEmpty (T : Type) [Inhabited T] (BuffSize : Nat) : CircularBuffer T BuffSize :=
  ⟨List.replicate BuffSize default, 0, 0, 0⟩

/-- Source: `Advance(Pos, Amount = 1) { return (Pos + Amount) % BuffSize; }`
specialised to the only used amount, 1. -/
def Advance (Pos : Nat) : Nat := (Pos + 1) % BuffSize

/-- Source: `bool Queue(auto&& Item)` — returns false when full, otherwise
writes at `m_Tail`, advances `m_Tail`, increments `m_Size`. -/
def Queue (c : CircularBuffer T BuffSize) (Item : T) : Bool × CircularBuffer T BuffSize :=
  if c.m_Size = BuffSize then (false, c)
  else
    (true,
      { c with
        m_Buffer := c.m_Buffer.set c.m_Tail Item
        m_Tail := @Advance BuffSize c.m_Tail
        m_Size := c.m_Size + 1 })

/-- Source: `std::optional<T> Dequeue()` — returns `nullopt` when empty,
otherwise reads at `m_Head`, advances `m_Head`, decrements `m_Size`. -/
def Dequeue [Inhabited T] (c : CircularBuffer T BuffSize) :
    Option T × CircularBuffer T BuffSize :=
  if c.m_Size = 0 then (none, c)
  else
    (some (c.m_Buffer.getD c.m_Head default),
      { c with
        m_Head := @Advance BuffSize c.m_Head
        m_Size := c.m_Size - 1 })

/-- Source: `uint32_t Size() const { return m_Size; }` -/
def Size (c : CircularBuffer T BuffSize) : Nat := c.m_Size

/-- Source: `uint32_t MaxCapacity() const { return BuffSize; }` -/
def MaxCapacity (_c : CircularBuffer T BuffSize) : Nat := BuffSize

/-- Abstraction: the queue contents in FIFO order, oldest first — the
`m_Size` stored cells starting at `m_Head`, wrapping modulo `BuffSize`. -/
def toList [Inhabited T] (c : CircularBuffer T BuffSize) : List T :=
  (List.range c.m_Size).map (fun i => c.m_Buffer.getD ((c.m_Head + i) % BuffSize) default)

/-- Representation invariant: the backing array keeps its fixed length,
the read index is in range, the element count never exceeds the capacity,
and the write index sits `m_Size` slots past the read index. -/
def WF (c : CircularBuffer T BuffSize) : Prop :=
  c.m_Buffer.length = BuffSize ∧ c.m_Head < BuffSize ∧ c.m_Size ≤ BuffSize ∧
    c.m_Tail = (c.m_Head + c.m_Size) % BuffSize

instance (c : CircularBuffer T BuffSize) : Decidable c.WF := by
  unfold WF
  exact inferInstance

end CircularBuffer

/-! ### Dynamic state machine (`ra::bricks::StateMachine::DynamicStateMachine`) -/

namespace StateMachine

/-- Model of a raw `IDynamicState*`: `none` is `nullptr`, `some h` is a
pointer whose address is `h`. -/
abbrev Ptr := Option Nat

/-- Observable lifecycle calls made by the machine on its states:
`OnEnter`, `OnExit` and `Update` invocations on the state at address `h`. -/
inductive FSMEvent where
  | onEnter (h : Nat)
  | onExit (h : Nat)
  | updateEv (h : Nat)
deriving DecidableEq, Repr

/-- Source: `enum class StateMachineStatus { Running, Halt };` -/
inductive StateMachineStatus where
  | Running
  | Halt
deriving DecidableEq, Repr

/-- The data of `DynamicStateMachine`: the `m_InProgress` flag, the
ownership policy's stored handle (for both `OwningPolicy` and
`NonOwningPolicy`, `Get()` returns the stored handle, `SetState(p)`
stores `p` and returns `Get()`), and the capacity-10 deferred queue
`ra::bricks::CircularBuffer<StateType*, 10> m_DeferredState`. -/
structure DSM where
  m_InProgress : Bool
  m_StatePolicy : Ptr
  m_DeferredState : CircularBuffer Ptr 10
deriving DecidableEq, Repr

/-- Construction state: `m_InProgress {false}`, empty policy storage,
default-constructed deferred queue. -/
def DSM.init : DSM :=
  ⟨false, none, CircularBuffer.mkEmpty Ptr 10⟩

/-- Source: `StateType* StateTransition(StateType* pState)` — installs
`pState` via `m_StatePolicy.SetState`, calls `OnEnter` on the result when
it is non-null, and returns it.  Note it never calls `OnExit`. -/
def StateTransition (pState : Ptr) (m : DSM) : Ptr × DSM × List FSMEvent :=
  let m' : DSM := { m with m_StatePolicy := pState }
  match m'.m_StatePolicy with
  | some h => (some h, m', [FSMEvent.onEnter h])
  | none => (none, m', [])

/-- Source: `StateType* StateTransitionDeferred(StateType* pState)` —
pushes `pState` onto the deferred queue (the `Queue` result, false when
full, is discarded) and returns `m_StatePolicy.Get()`. -/
def StateTransitionDeferred (pState : Ptr) (m : DSM) : Ptr × DSM :=
  let q' := (m.m_DeferredState.Queue pState).2
  (m.m_StatePolicy, { m with m_DeferredState := q' })

/-- Source: `StateType* EnterState(StateType* pState)` — defers when
`m_InProgress` is set, otherwise constructs an `InProgressGuard`
(flag set true), performs `StateTransition`, and the guard destructor
sets the flag to false. -/
def EnterState (pState : Ptr) (m : DSM) : Ptr × DSM × List FSMEvent :=
  if m.m_InProgress then
    let (r, m') := StateTransitionDeferred pState m
    (r, m', [])
  else
    let m1 : DSM := { m with m_InProgress := true }
    let (r, m2, ev) := StateTransition pState m1
    (r, { m2 with m_InProgress := false }, ev)

/-- Source: `StateType* EnterStateImmediate(StateType* pState)` — always
constructs an `InProgressGuard` (sets the flag true), performs
`StateTransition`, and the guard destructor sets the flag to false —
regardless of the value the flag had on entry. -/
def EnterStateImmediate (pState : Ptr) (m : DSM) : Ptr × DSM × List FSMEvent :=
  let m1 : DSM := { m with m_InProgress := true }
  let (r, m2, ev) := StateTransition pState m1
  (r, { m2 with m_InProgress := false }, ev)

/-- Source: `StateMachineStatus GetFSM_State() const` — `Halt` when the
policy's stored handle is null, `Running` otherwise. -/
def GetFSM_State (m : DSM) : StateMachineStatus :=
  match m.m_StatePolicy with
  | none => StateMachineStatus.Halt
  | some _ => StateMachineStatus.Running

/-- One reentrant call that a state's `Update` body makes back into the
machine while `Run` is executing it. -/
inductive NestedCall where
  | enterState (p : Ptr)
  | enterStateImmediate (p : Ptr)
deriving DecidableEq, Repr

/-- Executes the nested calls of an `Update` body in order, threading the
machine state and concatenating the recorded events. -/
def execNested : List NestedCall → DSM → DSM × List FSMEvent
  | [], m => (m, [])
  | NestedCall.enterState p :: rest, m =>
    let (_, m', ev) := EnterState p m
    let (m'', evs) := execNested rest m'
    (m'', ev ++ evs)
  | NestedCall.enterStateImmediate p :: rest, m =>
    let (_, m', ev) := EnterStateImmediate p m
    let (m'', evs) := execNested rest m'
    (m'', ev ++ evs)

/-- Source: `std::optional<ReturnType> Run(Input&& In)` with
`ReturnType := Nat`.  The active state's `Update` body is modelled by
`script` (its nested calls back into the machine, run in order) and
`ret = (ReturnVal, pNewState)` (the pair it returns).  Steps, exactly as
in the source: construct the `InProgressGuard` (flag true); early-return
`nullopt` when the policy holds no state (guard destructor resets the
flag); run `Update`; if the returned `pNewState` differs from the
captured `pS`, call `OnExit` on `pS` and push `pNewState` via
`StateTransitionDeferred`; dequeue at most one deferred request and, if
present, apply it via `StateTransition`; return the update value (guard
destructor resets the flag to false). -/
def Run (script : List NestedCall) (ret : Nat × Ptr) (m : DSM) :
    Option Nat × DSM × List FSMEvent :=
  let m1 : DSM := { m with m_InProgress := true }
  match m1.m_StatePolicy with
  | none => (none, { m1 with m_InProgress := false }, [])
  | some h =>
    let (m2, ev1) := execNested script m1
    let ReturnVal := ret.1
    let pNewState := ret.2
    let (m3, ev2) :=
      if pNewState ≠ some h then
        let (_, m') := StateTransitionDeferred pNewState m2
        (m', [FSMEvent.onExit h])
      else (m2, ([] : List FSMEvent))
    let (m4, ev3) :=
      match m3.m_DeferredState.Dequeue with
      | (some p, q') =>
        let (_, m', ev) := StateTransition p { m3 with m_DeferredState := q' }
        (m', ev)
      | (none, q') => ({ m3 with m_DeferredState := q' }, ([] : List FSMEvent))
    (some ReturnVal, { m4 with m_InProgress := false },
      FSMEvent.updateEv h :: (ev1 ++ ev2 ++ ev3))

/-- Caller scenario used for the FIFO-drain theorems: a `Run` call in
which the active state's `Update` makes no nested calls and returns
`(out, this)` — per the `IDynamicState::Update` contract, returning
`this` means "stay in current state". -/
def RunStay (out : Nat) (m : DSM) : Option Nat × DSM × List FSMEvent :=
  Run [] (out, m.m_StatePolicy) m

/-- Iterates `RunStay` `k` times, concatenating the recorded events. -/
def iterRunStay (out : Nat) : Nat → DSM → DSM × List FSMEvent
  | 0, m => (m, [])
  | k + 1, m =>
    let (_, m', ev) := RunStay out m
    let (m'', evs) := iterRunStay out k m'
    (m'', ev ++ evs)

/-- Projection of a trace to the addresses receiving `OnEnter`, in call
order. -/
def appliedEnters (ev : List FSMEvent) : List Nat :=
  ev.filterMap (fun e =>
    match e with
    | FSMEvent.onEnter h => some h
    | _ => none)

/-- Abstract view of a push onto the capacity-10 deferred queue: the
element is appended when there is room and silently dropped otherwise. -/
def pushBounded (L : List Nat) (n : Nat) : List Nat :=
  if L.length < 10 then L ++ [n] else L

end StateMachine

/-! ### Bit-packed version (`ra::version`, `src/unnamed/part_000`):
32-bit packing with 6-bit major, 10-bit minor, 16-bit patch.  `uint32_t`
arithmetic is `Nat` with an explicit reduction modulo `2 ^ 32` where the
source computes in 32 bits. -/

namespace ra_version

def MajorBits : Nat := 6
def MinorBits : Nat := 10
def PatchBits : Nat := 16

def MajorMask : Nat := (1 <<< MajorBits) - 1
def MinorMask : Nat := (1 <<< MinorBits) - 1
def PatchMask : Nat := (1 <<< PatchBits) - 1

def MajorShift : Nat := 26
def MinorShift : Nat := 16
def PatchShift : Nat := 0

/-- Source: `GetMajor(version) { return (version >> MajorShift) & MajorMask; }` -/
def GetMajor (version : Nat) : Nat := (version >>> MajorShift) &&& MajorMask

/-- Source: `GetMinor(version) { return (version >> MinorShift) & MinorMask; }` -/
def GetMinor (version : Nat) : Nat := (version >>> MinorShift) &&& MinorMask

/-- Source: `GetPatch(version) { return version & PatchMask; }` -/
def GetPatch (version : Nat) : Nat := version &&& PatchMask

/-- Source: `SetVersion(major, minor, patch)` — ors the shifted fields in
`uint32_t` arithmetic (hence the final reduction modulo `2 ^ 32`). -/
def SetVersion (major minor patch : Nat) : Nat :=
  ((major <<< MajorShift) ||| (minor <<< MinorShift) ||| (patch &&& PatchMask)) % 2 ^ 32

end ra_version

/-! ### Cached buffer (`ra::bricks::CachedBuffer`, both variants of
`src/DataStructure/Buffer/CachedBuffer.h`).  Bytes are `Nat`, the fixed
`std::array<std::byte, BufferSize> m_Buffer` is a `List Nat` whose length
plays the role of `m_Buffer.size()`, and `memcpy` into the array at a
given offset is take/append/drop splicing.  The store callback
`uint32_t (*)(std::span<const std::byte>, void*)` is modelled as a
function from the passed bytes to the reported written count (the opaque
`void* Args` is folded into the function). -/

namespace Cached

/-- Models `std::memcpy(buf.data() + off, data.data(), data.size())` for
an in-bounds write (`off + data.length ≤ buf.length`). -/
def memcpyAt (buf : List Nat) (off : Nat) (data : List Nat) : List Nat :=
  buf.take off ++ data ++ buf.drop (off + data.length)

/-- The state of a `CachedBuffer`: the backing array and `m_BufferOffset`. -/
structure CB where
  m_Buffer : List Nat
  m_BufferOffset : Nat
deriving DecidableEq, Repr

/-- The store callback: bytes handed over ↦ bytes reported written. -/
abbrev Cb := List Nat → Nat

end Cached

namespace CachedV1

open Cached

/-- Source (first variant, lines 106–115): flush helper.  When the cache
is non-empty it hands the cached bytes to the callback; only when the
callback reports exactly `WriteSize` bytes written is `m_BufferOffset`
reset to 0; returns `m_BufferOffset == 0`. -/
def EmptyBufferCache (cb : Cb) (b : CB) : Bool × CB :=
  if b.m_BufferOffset = 0 then (true, b)
  else
    let WriteSize := b.m_BufferOffset
    let BytesWritten := cb (b.m_Buffer.take WriteSize)
    let b' := if BytesWritten = WriteSize then { b with m_BufferOffset := 0 } else b
    (decide (b'.m_BufferOffset = 0), b')

/-- Source (first variant, lines 38–57): `bool Store(span Data)`.
Oversized data flushes the cache and is written directly; data that does
not fit in the remaining space flushes the cache first; then the data is
copied at `m_BufferOffset`. -/
def Store (cb : Cb) (Data : List Nat) (b : CB) : Bool × CB :=
  if Data.length > b.m_Buffer.length then
    match EmptyBufferCache cb b with
    | (false, b') => (false, b')
    | (true, b') => (decide (cb Data = Data.length), b')
  else
    let BufferSpace := b.m_Buffer.length - b.m_BufferOffset
    let flushed :=
      if Data.length > BufferSpace then EmptyBufferCache cb b else (true, b)
    match flushed with
    | (false, b1) => (false, b1)
    | (true, b1) =>
      (true,
        { b1 with
          m_Buffer := memcpyAt b1.m_Buffer b1.m_BufferOffset Data
          m_BufferOffset := b1.m_BufferOffset + Data.length })

end CachedV1

namespace CachedV2

open Cached

/-- Source (second variant, lines 237–252): flush helper.  A zero-byte
write reports failure with the cache untouched; a partial write shifts
the unconsumed `BytesLeft = m_BufferOffset - BytesWritten` bytes to the
front of the array (`memcpy(buf, buf + BytesWritten, BytesLeft)`), sets
`m_BufferOffset` to `BytesLeft`, and reports success. -/
def EmptyBufferCache (cb : Cb) (b : CB) : Bool × CB :=
  if b.m_BufferOffset = 0 then (true, b)
  else
    let BytesWritten := cb (b.m_Buffer.take b.m_BufferOffset)
    if BytesWritten = 0 then (false, b)
    else
      let BytesLeft := b.m_BufferOffset - BytesWritten
      (true,
        { b with
          m_Buffer :=
            (b.m_Buffer.drop BytesWritten).take BytesLeft ++ b.m_Buffer.drop BytesLeft
          m_BufferOffset := BytesLeft })

/-- Source (second variant): `bool Store(span Data)` — textually the same
body as the first variant's `Store`, calling this variant's flush helper. -/
def Store (cb : Cb) (Data : List Nat) (b : CB) : Bool × CB :=
  if Data.length > b.m_Buffer.length then
    match EmptyBufferCache cb b with
    | (false, b') => (false, b')
    | (true, b') => (decide (cb Data = Data.length), b')
  else
    let BufferSpace := b.m_Buffer.length - b.m_BufferOffset
    let flushed :=
      if Data.length > BufferSpace then EmptyBufferCache cb b else (true, b)
    match flushed with
    | (false, b1) => (false, b1)
    | (true, b1) =>
      (true,
        { b1 with
          m_Buffer := memcpyAt b1.m_Buffer b1.m_BufferOffset Data
          m_BufferOffset := b1.m_BufferOffset + Data.length })

end CachedV2

/-! ## Helper lemmas

The circular buffer refines a bounded FIFO list: `Queue` appends at the
tail (failing exactly when full), `Dequeue` removes the head. -/

namespace CircularBuffer

variable {T : Type} {BuffSize : Nat}

theorem wf_mkEmpty (T : Type) [Inhabited T] {BuffSize : Nat} (h : 0 < BuffSize) :
    WF (mkEmpty T BuffSize) := by
  refine ⟨List.length_replicate _ _, h, Nat.zero_le _, ?_⟩
  simp [mkEmpty]

@[simp] theorem toList_mkEmpty (T : Type) [Inhabited T] (BuffSize : Nat) :
    (mkEmpty T BuffSize).toList = [] := by
  simp [toList, mkEmpty]

theorem Queue_full {c : CircularBuffer T BuffSize} (h : c.m_Size = BuffSize) (x : T) :
    c.Queue x = (false, c) := by
  simp [Queue, h]

theorem getD_set_ne (l : List T) (i j : Nat) (x d : T) (hij : i ≠ j) :
    (l.set i x).getD j d = l.getD j d := by
  simp [List.getD_eq_getElem?_getD, List.getElem?_set_ne hij]

theorem getD_set_self (l : List T) (i : Nat) (x d : T) (hi : i < l.length) :
    (l.set i x).getD i d = x := by
  simp [List.getD_eq_getElem?_getD, List.getElem?_set_self hi]

theorem Queue_not_full [Inhabited T] {c : CircularBuffer T BuffSize}
    (hwf : WF c) (h : c.m_Size < BuffSize) (x : T) :
    (c.Queue x).1 = true ∧ WF (c.Queue x).2 ∧
      (c.Queue x).2.toList = c.toList ++ [x] ∧
      (c.Queue x).2.m_Size = c.m_Size + 1 := by
  obtain ⟨hlen, hhead, hsize, htail⟩ := hwf
  have hne : ¬ c.m_Size = BuffSize := Nat.ne_of_lt h
  have hn : 0 < BuffSize := Nat.lt_of_le_of_lt (Nat.zero_le _) h
  refine ⟨by simp [Queue, hne], ⟨?_, ?_, ?_, ?_⟩, ?_, by simp [Queue, hne]⟩
  · simp [Queue, hne, hlen]
  · simp [Queue, hne, hhead]
  · simp [Queue, hne]; omega
  · simp only [Queue, hne, if_false, Advance]
    rw [htail, Nat.mod_add_mod, Nat.add_assoc]
  · -- toList extends by the new element at the end
    simp only [Queue, hne, if_false, toList]
    have key : ∀ i : Nat, i < c.m_Size →
        (c.m_Buffer.set c.m_Tail x).getD ((c.m_Head + i) % BuffSize) default =
          c.m_Buffer.getD ((c.m_Head + i) % BuffSize) default := by
      intro i hi
      apply getD_set_ne
      rw [htail]
      intro hEq
      have hmodeq : Nat.ModEq BuffSize (c.m_Head + c.m_Size) (c.m_Head + i) := by
        unfold Nat.ModEq; omega
      have : Nat.ModEq BuffSize c.m_Size i := Nat.ModEq.add_left_cancel' c.m_Head hmodeq
      have hdvd : BuffSize ∣ c.m_Size - i := (Nat.modEq_iff_dvd' (Nat.le_of_lt hi)).mp this.symm
      have := Nat.le_of_dvd (by omega) hdvd
      omega
    rw [List.range_succ]
    simp only [List.map_append, List.map_cons, List.map_nil]
    congr 1
    · apply List.map_congr_left
      intro i hi
      exact key i (List.mem_range.mp hi)
    · -- the freshly written cell
      have htl : c.m_Tail < BuffSize := by rw [htail]; exact Nat.mod_lt _ hn
      have : (c.m_Head + c.m_Size) % BuffSize = c.m_Tail := htail.symm
      rw [this, getD_set_self _ _ _ _ (by rw [hlen]; exact htl)]

theorem Dequeue_empty [Inhabited T] {c : CircularBuffer T BuffSize} (h : c.m_Size = 0) :
    c.Dequeue = (none, c) := by
  simp [Dequeue, h]

theorem Dequeue_cons [Inhabited T] {c : CircularBuffer T BuffSize}
    (hwf : WF c) (h : 0 < c.m_Size) :
    (c.Dequeue).1 = some (c.m_Buffer.getD c.m_Head default) ∧
      WF (c.Dequeue).2 ∧
      c.toList = c.m_Buffer.getD c.m_Head default :: (c.Dequeue).2.toList ∧
      (c.Dequeue).2.m_Size = c.m_Size - 1 := by
  obtain ⟨hlen, hhead, hsize, htail⟩ := hwf
  have hne : ¬ c.m_Size = 0 := Nat.pos_iff_ne_zero.mp h
  have hn : 0 < BuffSize := Nat.lt_of_lt_of_le h hsize
  refine ⟨by simp [Dequeue, hne], ⟨?_, ?_, ?_, ?_⟩, ?_, by simp [Dequeue, hne]⟩
  · simp [Dequeue, hne, hlen]
  · simp [Dequeue, hne, Advance]
    exact Nat.mod_lt _ hn
  · simp [Dequeue, hne]; omega
  · simp only [Dequeue, hne, if_false, Advance]
    rw [htail, Nat.mod_add_mod]
    congr 1
    omega
  · -- head element plus the advanced-view tail
    simp only [Dequeue, hne, if_false, toList]
    obtain ⟨k, hk⟩ : ∃ k, c.m_Size = k + 1 := ⟨c.m_Size - 1, by omega⟩
    rw [hk]
    rw [List.range_succ_eq_map]
    simp only [List.map_cons, List.map_map, Nat.add_zero, Nat.add_sub_cancel]
    congr 1
    · rw [Nat.mod_eq_of_lt hhead]
    · apply List.map_congr_left
      intro i _
      simp only [Function.comp, Advance]
      congr 1
      have harg : c.m_Head + 1 + i = c.m_Head + i.succ := by omega
      rw [Nat.mod_add_mod, harg]

/-- Size bound: the size field never exceeds the capacity and both
operations preserve that. -/
theorem size_le_capacity [Inhabited T] {c : CircularBuffer T BuffSize}
    (hwf : WF c) (x : T) :
    c.Size ≤ c.MaxCapacity ∧ (c.Queue x).2.Size ≤ c.MaxCapacity ∧
      (c.Dequeue).2.Size ≤ c.MaxCapacity := by
  obtain ⟨_, _, hsize, _⟩ := hwf
  refine ⟨hsize, ?_, ?_⟩
  · by_cases hf : c.m_Size = BuffSize
    · simp [Queue, hf, Size, MaxCapacity, hsize]
    · simp [Queue, hf, Size, MaxCapacity]
      omega
  · by_cases he : c.m_Size = 0
    · simp [Dequeue, he, Size, MaxCapacity, hsize]
    · simp [Dequeue, he, Size, MaxCapacity]
      omega

end CircularBuffer

namespace ra_version

theorem SetVersion_eq_add (major minor patch : Nat)
    (hM : major ≤ 63) (hm : minor ≤ 1023) (hp : patch ≤ 65535) :
    SetVersion major minor patch = major * 2 ^ 26 + minor * 2 ^ 16 + patch := by
  have hPM : PatchMask = 2 ^ 16 - 1 := by decide
  simp only [SetVersion, MajorShift, MinorShift]
  rw [hPM, Nat.and_pow_two_sub_one_eq_mod,
    Nat.mod_eq_of_lt (show patch < 2 ^ 16 by omega)]
  rw [Nat.or_assoc, Nat.shiftLeft_eq, Nat.shiftLeft_eq]
  have h2 : minor * 2 ^ 16 ||| patch = minor * 2 ^ 16 + patch := by
    rw [Nat.mul_comm]
    exact (Nat.mul_add_lt_is_or (by omega) minor).symm
  rw [h2]
  have h3 : major * 2 ^ 26 ||| (minor * 2 ^ 16 + patch)
      = major * 2 ^ 26 + (minor * 2 ^ 16 + patch) := by
    rw [Nat.mul_comm]
    exact (Nat.mul_add_lt_is_or (by omega) major).symm
  rw [h3,
    Nat.mod_eq_of_lt (show major * 2 ^ 26 + (minor * 2 ^ 16 + patch) < 2 ^ 32 by omega),
    Nat.add_assoc]

end ra_version

namespace StateMachine

theorem toList_length {T : Type} [Inhabited T] {n : Nat} (c : CircularBuffer T n) :
    c.toList.length = c.m_Size := by
  simp [CircularBuffer.toList]

/-- A `Run` on a halted machine returns no output before touching the
deferred queue: only the guard's flag write is observable. -/
theorem run_halted (script : List NestedCall) (ret : Nat × Ptr) (m : DSM)
    (h : m.m_StatePolicy = none) :
    Run script ret m = (none, { m with m_InProgress := false }, []) := by
  simp [Run, h]

/-- `Run` returns the update value whenever a state is active, whatever
the script, the requested next handle, or the queue occupancy. -/
theorem run_output (script : List NestedCall) (ret : Nat × Ptr) (m : DSM)
    (hh : m.m_StatePolicy.isSome) :
    (Run script ret m).1 = some ret.1 := by
  obtain ⟨h, hp⟩ := Option.isSome_iff_exists.mp hh
  simp [Run, hp]

/-- `EnterState` while in progress only pushes onto the deferred queue and
returns the unchanged active handle; no lifecycle calls happen. -/
theorem enterState_inProgress (p : Ptr) (m : DSM) (h : m.m_InProgress = true) :
    EnterState p m =
      (m.m_StatePolicy, { m with m_DeferredState := (m.m_DeferredState.Queue p).2 }, []) := by
  simp [EnterState, h, StateTransitionDeferred]

/-- `EnterState` while not in progress applies the transition at once:
the handle is installed and receives the only lifecycle call, `OnEnter`. -/
theorem enterState_notInProgress (v : Nat) (m : DSM) (h : m.m_InProgress = false) :
    EnterState (some v) m =
      (some v, { m with m_InProgress := false, m_StatePolicy := some v },
        [FSMEvent.onEnter v]) := by
  simp [EnterState, h, StateTransition]

/-- `EnterStateImmediate` applies the transition unconditionally and its
guard leaves the flag false afterwards, whatever it was before. -/
theorem enterStateImmediate_eq (v : Nat) (m : DSM) :
    EnterStateImmediate (some v) m =
      (some v, { m with m_InProgress := false, m_StatePolicy := some v },
        [FSMEvent.onEnter v]) := by
  simp [EnterStateImmediate, StateTransition]

/-- One `RunStay` cycle drains exactly the head of a non-empty deferred
queue and applies it. -/
theorem runStay_step {m : DSM} {h v : Nat} {tl : List Ptr} (out : Nat)
    (hp : m.m_StatePolicy = some h)
    (hwf : m.m_DeferredState.WF)
    (hq : m.m_DeferredState.toList = some v :: tl) :
    RunStay out m =
      (some out,
        { m_InProgress := false, m_StatePolicy := some v,
          m_DeferredState := (m.m_DeferredState.Dequeue).2 },
        [FSMEvent.updateEv h, FSMEvent.onEnter v]) ∧
      (m.m_DeferredState.Dequeue).2.toList = tl ∧
      (m.m_DeferredState.Dequeue).2.WF := by
  have hlen : 0 < m.m_DeferredState.m_Size := by
    rw [← toList_length, hq]; simp
  obtain ⟨hd1, hwf', hcons, _⟩ := CircularBuffer.Dequeue_cons hwf hlen
  rw [hq] at hcons
  injection hcons with h1 h2
  have hdq : m.m_DeferredState.Dequeue =
      (some (some v), (m.m_DeferredState.Dequeue).2) := by
    have he : m.m_DeferredState.Dequeue =
        ((m.m_DeferredState.Dequeue).1, (m.m_DeferredState.Dequeue).2) := rfl
    rw [he, hd1, ← h1]
  refine ⟨?_, h2.symm, hwf'⟩
  simp [RunStay, Run, hp, execNested]
  rw [hdq]
  simp [StateTransition]

/-- Iterated `RunStay` cycles drain an all-non-null deferred queue in
exactly FIFO order, one element per cycle. -/
theorem iterRunStay_fifo (out : Nat) :
    ∀ (k : Nat) (vs : List Nat) (m : DSM) (h : Nat),
      k ≤ vs.length →
      m.m_StatePolicy = some h →
      m.m_DeferredState.WF →
      m.m_DeferredState.toList = vs.map some →
      appliedEnters (iterRunStay out k m).2 = vs.take k ∧
        (iterRunStay out k m).1.m_DeferredState.toList = (vs.drop k).map some ∧
        (iterRunStay out k m).1.m_StatePolicy = some ((h :: vs).getD k 0) ∧
        (iterRunStay out k m).1.m_DeferredState.WF := by
  intro k
  induction k with
  | zero =>
    intro vs m h _ hp hwf hq
    exact ⟨rfl, by simpa using hq, by simpa using hp, hwf⟩
  | succ k ih =>
    intro vs m h hk hp hwf hq
    cases vs with
    | nil => exact absurd hk (by simp)
    | cons v vs' =>
      have hq' : m.m_DeferredState.toList = some v :: vs'.map some := by
        simpa using hq
      obtain ⟨hrun, htl, hwf'⟩ := runStay_step out hp hwf hq'
      have hk' : k ≤ vs'.length := by simpa using hk
      set m' : DSM :=
        { m_InProgress := false, m_StatePolicy := some v,
          m_DeferredState := (m.m_DeferredState.Dequeue).2 } with hm'
      have ihres := ih vs' m' v hk' (by simp [hm']) (by simpa [hm'] using hwf')
        (by simpa [hm'] using htl)
      obtain ⟨ih1, ih2, ih3, ih4⟩ := ihres
      have hiter : iterRunStay out (k + 1) m =
          ((iterRunStay out k m').1,
            [FSMEvent.updateEv h, FSMEvent.onEnter v] ++ (iterRunStay out k m').2) := by
        simp [iterRunStay, hrun, hm']
      rw [hiter]
      refine ⟨?_, by simpa using ih2, by simpa using ih3, ih4⟩
      simp [appliedEnters, List.filterMap_append] at ih1 ⊢
      rw [ih1]

/-- A script of `EnterState` calls executed while the machine is in
progress only appends the requested handles to the deferred queue, in
submission order; no lifecycle calls happen and the active handle and
flag are untouched. -/
theorem execNested_enterStates (rs : List Nat) :
    ∀ (m : DSM), m.m_InProgress = true → m.m_DeferredState.WF →
      m.m_DeferredState.m_Size + rs.length ≤ 10 →
      (execNested (rs.map fun v => NestedCall.enterState (some v)) m).1.m_InProgress = true ∧
      (execNested (rs.map fun v => NestedCall.enterState (some v)) m).1.m_StatePolicy
          = m.m_StatePolicy ∧
      (execNested (rs.map fun v => NestedCall.enterState (some v)) m).1.m_DeferredState.WF ∧
      (execNested (rs.map fun v => NestedCall.enterState (some v)) m).1.m_DeferredState.toList
          = m.m_DeferredState.toList ++ rs.map some ∧
      (execNested (rs.map fun v => NestedCall.enterState (some v)) m).1.m_DeferredState.m_Size
          = m.m_DeferredState.m_Size + rs.length ∧
      (execNested (rs.map fun v => NestedCall.enterState (some v)) m).2 = [] := by
  induction rs with
  | nil =>
    intro m hip hwf _
    exact ⟨hip, rfl, hwf, by simp [execNested], by simp [execNested], rfl⟩
  | cons r rs' ih =>
    intro m hip hwf hcap
    have hlt : m.m_DeferredState.m_Size < 10 := by simp at hcap; omega
    obtain ⟨hq1, hqwf, hqlist, hqsize⟩ :=
      CircularBuffer.Queue_not_full hwf hlt (some r)
    have hstep : EnterState (some r) m =
        (m.m_StatePolicy,
          { m with m_DeferredState := (m.m_DeferredState.Queue (some r)).2 }, []) :=
      enterState_inProgress (some r) m hip
    set m1 : DSM := { m with m_DeferredState := (m.m_DeferredState.Queue (some r)).2 }
      with hm1
    have ihres := ih m1 (by simp [hm1, hip]) (by simpa [hm1] using hqwf)
      (by simp [hm1]; rw [hqsize]; simp at hcap ⊢; omega)
    obtain ⟨i1, i2, i3, i4, i5, i6⟩ := ihres
    have hexec : execNested ((r :: rs').map fun v => NestedCall.enterState (some v)) m =
        ((execNested (rs'.map fun v => NestedCall.enterState (some v)) m1).1,
          [] ++ (execNested (rs'.map fun v => NestedCall.enterState (some v)) m1).2) := by
      simp [execNested, hstep, hm1]
    rw [hexec]
    refine ⟨i1, by simp [hm1] at i2; simpa using i2, i3, ?_, ?_, by simpa using i6⟩
    · rw [i4]
      simp [hm1]
      rw [hqlist]
      simp
    · rw [i5]
      simp [hm1]
      rw [hqsize]
      omega

/-- Core of a `Run` cycle whose `Update` body defers `rs` (in order) via
nested `EnterState` calls and then returns a handle different from the
active one: `OnExit` fires once on the active state, the returned handle
is pushed after the nested submissions (dropped when the queue is full),
and exactly the oldest request is popped and applied. -/
theorem run_deferred_core (out n h : Nat) (qs rs : List Nat) (m : DSM)
    (hp : m.m_StatePolicy = some h)
    (hwf : m.m_DeferredState.WF)
    (hq : m.m_DeferredState.toList = qs.map some)
    (hcap : qs.length + rs.length ≤ 10)
    (hne : n ≠ h) :
    (Run (rs.map fun v => NestedCall.enterState (some v)) (out, some n) m).1 = some out ∧
    (Run (rs.map fun v => NestedCall.enterState (some v)) (out, some n) m).2.1.m_InProgress
        = false ∧
    (Run (rs.map fun v => NestedCall.enterState (some v)) (out, some n) m).2.1.m_StatePolicy
        = some ((pushBounded (qs ++ rs) n).headI) ∧
    (Run (rs.map fun v => NestedCall.enterState (some v)) (out, some n) m).2.1.m_DeferredState.toList
        = ((pushBounded (qs ++ rs) n).tail).map some ∧
    (Run (rs.map fun v => NestedCall.enterState (some v)) (out, some n) m).2.1.m_DeferredState.WF ∧
    (Run (rs.map fun v => NestedCall.enterState (some v)) (out, some n) m).2.2
        = [FSMEvent.updateEv h, FSMEvent.onExit h,
            FSMEvent.onEnter ((pushBounded (qs ++ rs) n).headI)] := by
  obtain ⟨flag, pol, Q⟩ := m
  have hp' : pol = some h := hp
  subst hp'
  have hQwf : Q.WF := hwf
  have hQq : Q.toList = qs.map some := hq
  have hsz : Q.m_Size = qs.length := by
    rw [← toList_length, hQq]; simp
  have hm1flag : ((⟨true, some h, Q⟩ : DSM)).m_InProgress = true := rfl
  obtain ⟨e1, e2, e3, e4, e5, e6⟩ :=
    execNested_enterStates rs ⟨true, some h, Q⟩ hm1flag hQwf
      (by show Q.m_Size + rs.length ≤ 10; omega)
  set E := execNested (rs.map fun v => NestedCall.enterState (some v))
      (⟨true, some h, Q⟩ : DSM) with hE
  have hEq : E.1.m_DeferredState.toList = (qs ++ rs).map some := by
    rw [e4]
    show Q.toList ++ rs.map some = _
    rw [hQq]; simp
  have hEsz : E.1.m_DeferredState.m_Size = qs.length + rs.length := by
    rw [e5]
    show Q.m_Size + rs.length = _
    rw [hsz]
  -- the push of the update-returned handle
  have hqueue : ((E.1.m_DeferredState.Queue (some n)).2).toList
        = (pushBounded (qs ++ rs) n).map some ∧
      ((E.1.m_DeferredState.Queue (some n)).2).WF := by
    by_cases hlt : qs.length + rs.length < 10
    · obtain ⟨_, hw, hl, _⟩ := CircularBuffer.Queue_not_full e3 (by omega) (some n)
      refine ⟨?_, hw⟩
      rw [hl, hEq, pushBounded, if_pos (by simpa using hlt)]
      simp
    · have hfull : E.1.m_DeferredState.m_Size = 10 := by omega
      rw [CircularBuffer.Queue_full hfull (some n)]
      refine ⟨?_, e3⟩
      rw [hEq, pushBounded, if_neg (by simpa using hlt)]
  obtain ⟨hq3, hwf3⟩ := hqueue
  have hL'ne : pushBounded (qs ++ rs) n ≠ [] := by
    by_cases hlt : (qs ++ rs).length < 10
    · rw [pushBounded, if_pos hlt]; simp
    · rw [pushBounded, if_neg hlt]
      intro hnil
      rw [hnil] at hlt
      simp at hlt
  obtain ⟨w, t, hwt⟩ : ∃ w t, pushBounded (qs ++ rs) n = w :: t := by
    cases hL : pushBounded (qs ++ rs) n with
    | nil => exact absurd hL hL'ne
    | cons a b => exact ⟨a, b, rfl⟩
  have hq3' : ((E.1.m_DeferredState.Queue (some n)).2).toList
      = some w :: t.map some := by rw [hq3, hwt]; simp
  have hpos : 0 < ((E.1.m_DeferredState.Queue (some n)).2).m_Size := by
    rw [← toList_length, hq3']; simp
  obtain ⟨hd1, hwf4, hcons, _⟩ := CircularBuffer.Dequeue_cons hwf3 hpos
  rw [hq3'] at hcons
  injection hcons with hc1 hc2
  have hdq : ((E.1.m_DeferredState.Queue (some n)).2).Dequeue =
      (some (some w), ((E.1.m_DeferredState.Queue (some n)).2).Dequeue.2) := by
    have he : ((E.1.m_DeferredState.Queue (some n)).2).Dequeue =
        (((E.1.m_DeferredState.Queue (some n)).2).Dequeue.1,
          ((E.1.m_DeferredState.Queue (some n)).2).Dequeue.2) := rfl
    rw [he, hd1, ← hc1]
  rw [hwt]
  simp only [List.headI, List.tail]
  simp [Run, hne, StateTransitionDeferred, ← hE, e6]
  rw [hdq]
  simp [StateTransition]
  exact ⟨by simpa using hc2.symm, hwf4⟩

end StateMachine

/-! ## Claim theorems -/

namespace StateMachine

/-- C1 counterexample: with the in-progress flag already true (as it is
for the whole body of an enclosing `Run`), a nested `EnterStateImmediate`
leaves the flag false on return — the guard destructor writes `false`
unconditionally instead of restoring the prior value, so the flag does
not stay true for the remainder of the enclosing call. -/
theorem C1_counterexample :
    (EnterStateImmediate (some 2)
        ⟨true, some 1, CircularBuffer.mkEmpty Ptr 10⟩).2.1.m_InProgress ≠ true := by
  decide

/-- C1 (amended): the `InProgressGuard` sets the in-progress flag true on
construction and writes `false` — not the prior value — on every exit
path.  Hence every `Run` and every `EnterStateImmediate` ends with the
flag false, even when the flag was true on entry (the nested case), and
`EnterState` alone preserves the caller's flag value. -/
theorem C1_inprogress_flag_reset :
    (∀ (script : List NestedCall) (ret : Nat × Ptr) (m : DSM),
      (Run script ret m).2.1.m_InProgress = false) ∧
    (∀ (p : Ptr) (m : DSM), (EnterStateImmediate p m).2.1.m_InProgress = false) ∧
    (∀ (p : Ptr) (m : DSM), m.m_InProgress = true →
      (EnterStateImmediate p m).2.1.m_InProgress = false) ∧
    (∀ (p : Ptr) (m : DSM), (EnterState p m).2.1.m_InProgress = m.m_InProgress) := by
  refine ⟨?_, ?_, ?_, ?_⟩
  · intro script ret m
    cases hp : m.m_StatePolicy <;> simp [Run, hp]
  · intro p m
    cases p <;> simp [EnterStateImmediate, StateTransition]
  · intro p m _
    cases p <;> simp [EnterStateImmediate, StateTransition]
  · intro p m
    cases hip : m.m_InProgress
    · cases p <;> simp [EnterState, hip, StateTransition]
    · simp [EnterState, hip, StateTransitionDeferred]

/-- Witness for the C1 amended theorem, including the nested case with
the flag true on entry. -/
theorem C1_inprogress_flag_reset_witness :
    (Run [] (0, none) DSM.init).2.1.m_InProgress = false ∧
    (EnterStateImmediate (some 2)
        (⟨true, some 1, CircularBuffer.mkEmpty Ptr 10⟩ : DSM)).2.1.m_InProgress
      = false :=
  ⟨C1_inprogress_flag_reset.1 [] (0, none) DSM.init,
    C1_inprogress_flag_reset.2.2.1 (some 2)
      ⟨true, some 1, CircularBuffer.mkEmpty Ptr 10⟩ rfl⟩

/-- C2 counterexample: with state 1 active and the machine idle,
`EnterState` to the different state 2 performs only `OnEnter(2)`; no
`OnExit` is ever delivered to the outgoing state 1, contradicting the
claim that every distinct-state transition calls `OnExit` once on the
outgoing state before `OnEnter`. -/
theorem C2_counterexample :
    (EnterState (some 2)
        (⟨false, some 1, CircularBuffer.mkEmpty Ptr 10⟩ : DSM)).2.2
      = [FSMEvent.onEnter 2] ∧
    FSMEvent.onExit 1 ∉
      (EnterState (some 2)
        (⟨false, some 1, CircularBuffer.mkEmpty Ptr 10⟩ : DSM)).2.2 := by
  decide

/-- C2 (amended): only the `Run` path calls `OnExit` — when `Update`
returns a different handle, `OnExit` fires exactly once on the outgoing
state before the drained request's single `OnEnter`, with nothing in
between.  Transitions applied by `EnterState` while idle and by
`EnterStateImmediate` call `OnEnter` exactly once on the incoming
non-null state and never call `OnExit` on the outgoing one. -/
theorem C2_lifecycle_order :
    (∀ (m : DSM) (h n out : Nat), m.m_StatePolicy = some h →
      m.m_DeferredState.WF → m.m_DeferredState.toList = [] → n ≠ h →
      (Run [] (out, some n) m).2.2
          = [FSMEvent.updateEv h, FSMEvent.onExit h, FSMEvent.onEnter n] ∧
      (Run [] (out, some n) m).2.1.m_StatePolicy = some n) ∧
    (∀ (m : DSM) (v : Nat), m.m_InProgress = false →
      (EnterState (some v) m).2.2 = [FSMEvent.onEnter v]) ∧
    (∀ (m : DSM) (v : Nat),
      (EnterStateImmediate (some v) m).2.2 = [FSMEvent.onEnter v]) := by
  refine ⟨?_, ?_, ?_⟩
  · intro m h n out hp hwf hq hne
    have core := run_deferred_core out n h [] [] m hp hwf (by simpa using hq)
      (by simp) hne
    obtain ⟨_, _, c3, _, _, c6⟩ := core
    have hpb : pushBounded ([] ++ []) n = [n] := by
      rw [pushBounded]
      simp
    rw [hpb] at c3 c6
    exact ⟨by simpa using c6, by simpa using c3⟩
  · intro m v hip
    rw [enterState_notInProgress v m hip]
  · intro m v
    rw [enterStateImmediate_eq v m]

/-- Witness for the C2 amended theorem. -/
theorem C2_lifecycle_order_witness :
    (Run [] (5, some 2)
        (⟨false, some 1, CircularBuffer.mkEmpty Ptr 10⟩ : DSM)).2.2
      = [FSMEvent.updateEv 1, FSMEvent.onExit 1, FSMEvent.onEnter 2] ∧
    (EnterState (some 3)
        (⟨false, some 7, CircularBuffer.mkEmpty Ptr 10⟩ : DSM)).2.2
      = [FSMEvent.onEnter 3] :=
  ⟨(C2_lifecycle_order.1 ⟨false, some 1, CircularBuffer.mkEmpty Ptr 10⟩ 1 2 5 rfl
      (by decide) (by decide) (by decide)).1,
    C2_lifecycle_order.2.1 ⟨false, some 7, CircularBuffer.mkEmpty Ptr 10⟩ 3 rfl⟩

/-- C3: deferred transition requests — those queued by nested
`EnterState` calls while in progress and the push of the update-returned
handle inside `Run` — are applied in exactly FIFO submission order, with
the nested submissions preceding the update-returned handle, and each
`Run` call applies at most one queued request; later requests wait for
subsequent `Run` calls. -/
theorem C3_fifo_order :
    (∀ (m : DSM) (h n out : Nat) (qs rs : List Nat),
      m.m_StatePolicy = some h → m.m_DeferredState.WF →
      m.m_DeferredState.toList = qs.map some →
      qs.length + rs.length + 1 ≤ 10 → n ≠ h →
      (Run (rs.map fun v => NestedCall.enterState (some v)) (out, some n) m).1
          = some out ∧
      (Run (rs.map fun v => NestedCall.enterState (some v)) (out, some n) m).2.1.m_StatePolicy
          = some (((qs ++ rs) ++ [n]).headI) ∧
      (Run (rs.map fun v => NestedCall.enterState (some v)) (out, some n) m).2.1.m_DeferredState.toList
          = (((qs ++ rs) ++ [n]).tail).map some ∧
      appliedEnters
          (Run (rs.map fun v => NestedCall.enterState (some v)) (out, some n) m).2.2
          = [((qs ++ rs) ++ [n]).headI]) ∧
    (∀ (out k : Nat) (vs : List Nat) (m : DSM) (h : Nat),
      k ≤ vs.length → m.m_StatePolicy = some h → m.m_DeferredState.WF →
      m.m_DeferredState.toList = vs.map some →
      appliedEnters (iterRunStay out k m).2 = vs.take k) ∧
    (∀ (out : Nat) (m : DSM), (appliedEnters (RunStay out m).2.2).length ≤ 1) := by
  refine ⟨?_, ?_, ?_⟩
  · intro m h n out qs rs hp hwf hq hcap hne
    have core := run_deferred_core out n h qs rs m hp hwf hq (by omega) hne
    obtain ⟨c1, _, c3, c4, _, c6⟩ := core
    have hpb : pushBounded (qs ++ rs) n = (qs ++ rs) ++ [n] := by
      rw [pushBounded, if_pos]
      simp
      omega
    rw [hpb] at c3 c4 c6
    refine ⟨c1, c3, c4, ?_⟩
    rw [c6]
    simp [appliedEnters]
  · intro out k vs m h hk hp hwf hq
    exact (iterRunStay_fifo out k vs m h hk hp hwf hq).1
  · intro out m
    cases hp : m.m_StatePolicy with
    | none =>
      have := run_halted [] (out, m.m_StatePolicy) m hp
      simp [RunStay, this, appliedEnters]
    | some h =>
      rcases hdq : m.m_DeferredState.Dequeue with ⟨o, q'⟩
      rcases o with _ | p
      · simp [RunStay, Run, hp, execNested, hdq, appliedEnters]
      · rcases p with _ | v
        · simp [RunStay, Run, hp, execNested, hdq, StateTransition, appliedEnters]
        · simp [RunStay, Run, hp, execNested, hdq, StateTransition, appliedEnters]

/-- Witness for C3: a first `Run` submits and applies FIFO-first, and an
iterated drain applies a pre-queued request. -/
theorem C3_fifo_order_witness :
    (Run ([1, 2].map fun v => NestedCall.enterState (some v)) (7, some 3)
        (⟨false, some 100, CircularBuffer.mkEmpty Ptr 10⟩ : DSM)).2.1.m_StatePolicy
      = some 1 ∧
    appliedEnters
        (iterRunStay 0 1
          (⟨false, some 1,
            ⟨[some 5, none, none, none, none, none, none, none, none, none],
              0, 1, 1⟩⟩ : DSM)).2
      = [5] := by
  constructor
  · exact (C3_fifo_order.1 ⟨false, some 100, CircularBuffer.mkEmpty Ptr 10⟩
      100 3 7 [] [1, 2] rfl (by decide) (by decide) (by decide) (by decide)).2.1
  · exact C3_fifo_order.2.1 0 1 [5]
      ⟨false, some 1,
        ⟨[some 5, none, none, none, none, none, none, none, none, none], 0, 1, 1⟩⟩
      1 (by decide) rfl (by decide) (by decide)

/-- C4 counterexample: with state 1 active and the machine idle,
`EnterState` with the already-active handle 1 still invokes `OnEnter(1)`
— the same-handle check exists only on the `Run`/`Update` path. -/
theorem C4_counterexample :
    (⟨false, some 1, CircularBuffer.mkEmpty Ptr 10⟩ : DSM).m_StatePolicy
        = some 1 ∧
    (EnterState (some 1)
        (⟨false, some 1, CircularBuffer.mkEmpty Ptr 10⟩ : DSM)).2.2
      = [FSMEvent.onEnter 1] := by
  decide

/-- C4 (amended): only `Run` skips lifecycle calls when `Update` returns
the handle that is already active (no `OnExit`/`OnEnter` when the queue
is empty); `EnterState` while idle and `EnterStateImmediate` invoke
`OnEnter` on the requested handle even when it is already the active
one. -/
theorem C4_same_handle_lifecycle :
    (∀ (m : DSM) (h out : Nat), m.m_StatePolicy = some h →
      m.m_DeferredState.m_Size = 0 →
      (Run [] (out, some h) m).2.2 = [FSMEvent.updateEv h] ∧
      (Run [] (out, some h) m).2.1.m_StatePolicy = some h) ∧
    (∀ (m : DSM) (h : Nat), m.m_InProgress = false → m.m_StatePolicy = some h →
      (EnterState (some h) m).2.2 = [FSMEvent.onEnter h]) ∧
    (∀ (m : DSM) (h : Nat), m.m_StatePolicy = some h →
      (EnterStateImmediate (some h) m).2.2 = [FSMEvent.onEnter h]) := by
  refine ⟨?_, ?_, ?_⟩
  · intro m h out hp hsz
    have hdq := @CircularBuffer.Dequeue_empty Ptr 10 _ m.m_DeferredState hsz
    constructor
    · simp [Run, hp, execNested, hdq]
    · simp [Run, hp, execNested, hdq]
  · intro m h hip _
    rw [enterState_notInProgress h m hip]
  · intro m h _
    rw [enterStateImmediate_eq h m]

/-- Witness for the C4 amended theorem. -/
theorem C4_same_handle_lifecycle_witness :
    (Run [] (4, some 1)
        (⟨false, some 1, CircularBuffer.mkEmpty Ptr 10⟩ : DSM)).2.2
      = [FSMEvent.updateEv 1] ∧
    (EnterState (some 1)
        (⟨false, some 1, CircularBuffer.mkEmpty Ptr 10⟩ : DSM)).2.2
      = [FSMEvent.onEnter 1] :=
  ⟨(C4_same_handle_lifecycle.1 ⟨false, some 1, CircularBuffer.mkEmpty Ptr 10⟩ 1 4
      rfl (by decide)).1,
    C4_same_handle_lifecycle.2.1 ⟨false, some 1, CircularBuffer.mkEmpty Ptr 10⟩ 1
      rfl rfl⟩

/-- C5: a transition request made while the deferred queue holds its full
capacity of 10 pending requests is rejected: `Queue` returns false and
leaves the buffer untouched, the size never exceeds the capacity, and
the caller gets no error signal — `EnterState` still returns the
unchanged active handle with the machine state intact, and `Run` still
returns its update output. -/
theorem C5_overflow_silent_drop :
    (∀ (c : CircularBuffer Ptr 10) (p : Ptr), c.m_Size = 10 →
      c.Queue p = (false, c)) ∧
    (∀ (c : CircularBuffer Ptr 10) (p : Ptr), c.WF →
      c.Size ≤ c.MaxCapacity ∧ (c.Queue p).2.Size ≤ c.MaxCapacity ∧
        c.Dequeue.2.Size ≤ c.MaxCapacity) ∧
    (∀ (m : DSM) (p : Ptr), m.m_InProgress = true →
      m.m_DeferredState.m_Size = 10 →
      EnterState p m = (m.m_StatePolicy, m, [])) ∧
    (∀ (m : DSM) (script : List NestedCall) (ret : Nat × Ptr),
      m.m_StatePolicy.isSome → (Run script ret m).1 = some ret.1) := by
  refine ⟨?_, ?_, ?_, ?_⟩
  · intro c p hfull
    exact CircularBuffer.Queue_full hfull p
  · intro c p hwf
    exact CircularBuffer.size_le_capacity hwf p
  · intro m p hip hfull
    rw [enterState_inProgress p m hip, CircularBuffer.Queue_full hfull p]
  · intro m script ret hh
    exact run_output script ret m hh

/-- Witness for C5 at a concrete full queue. -/
theorem C5_overflow_silent_drop_witness :
    (⟨List.replicate 10 (some 0), 0, 0, 10⟩ : CircularBuffer Ptr 10).Queue (some 5)
        = (false, ⟨List.replicate 10 (some 0), 0, 0, 10⟩) ∧
    EnterState (some 5)
        (⟨true, some 1, ⟨List.replicate 10 (some 0), 0, 0, 10⟩⟩ : DSM)
      = (some 1, ⟨true, some 1, ⟨List.replicate 10 (some 0), 0, 0, 10⟩⟩, []) ∧
    (Run [] (9, none)
        (⟨false, some 1, ⟨List.replicate 10 (some 0), 0, 0, 10⟩⟩ : DSM)).1
      = some 9 :=
  ⟨C5_overflow_silent_drop.1 ⟨List.replicate 10 (some 0), 0, 0, 10⟩ (some 5)
      (by decide),
    C5_overflow_silent_drop.2.2.1
      ⟨true, some 1, ⟨List.replicate 10 (some 0), 0, 0, 10⟩⟩ (some 5) rfl
      (by decide),
    C5_overflow_silent_drop.2.2.2
      ⟨false, some 1, ⟨List.replicate 10 (some 0), 0, 0, 10⟩⟩ [] (9, none) rfl⟩

/-- C6: when a `Run` call pops a null requested-next handle from the
deferred queue (here: the active state's `Update` returned null, which
was pushed and immediately drained), the policy's stored handle is
cleared, no `OnEnter` fires, and the machine reports `Halt`; every
subsequent `Run` returns absent output and changes nothing until
`EnterState`/`EnterStateImmediate` installs a new state. -/
theorem C6_null_request_halts (m : DSM) (h out : Nat)
    (hp : m.m_StatePolicy = some h)
    (hwf : m.m_DeferredState.WF)
    (hq : m.m_DeferredState.toList = []) :
    (Run [] (out, none) m).1 = some out ∧
    (Run [] (out, none) m).2.1.m_StatePolicy = none ∧
    GetFSM_State (Run [] (out, none) m).2.1 = StateMachineStatus.Halt ∧
    appliedEnters (Run [] (out, none) m).2.2 = [] ∧
    (∀ (script : List NestedCall) (ret : Nat × Ptr),
      Run script ret (Run [] (out, none) m).2.1
        = (none, (Run [] (out, none) m).2.1, [])) ∧
    (∀ v : Nat,
      (EnterState (some v) (Run [] (out, none) m).2.1).2.1.m_StatePolicy
        = some v) := by
  obtain ⟨flag, pol, Q⟩ := m
  have hp' : pol = some h := hp
  subst hp'
  have hQwf : Q.WF := hwf
  have hQq : Q.toList = [] := hq
  have hsz : Q.m_Size = 0 := by
    rw [← toList_length, hQq]; rfl
  obtain ⟨_, hw2, hl2, hs2⟩ := CircularBuffer.Queue_not_full hQwf (by omega) none
  have hl2' : (Q.Queue none).2.toList = [none] := by
    rw [hl2, hQq]; rfl
  have hpos : 0 < (Q.Queue none).2.m_Size := by
    rw [hs2]; omega
  obtain ⟨hd1, hwf4, hcons, _⟩ := CircularBuffer.Dequeue_cons hw2 hpos
  rw [hl2'] at hcons
  injection hcons with hc1 hc2
  have hdq : (Q.Queue none).2.Dequeue =
      (some none, (Q.Queue none).2.Dequeue.2) := by
    have he : (Q.Queue none).2.Dequeue =
        ((Q.Queue none).2.Dequeue.1, (Q.Queue none).2.Dequeue.2) := rfl
    rw [he, hd1, ← hc1]
  have hrun : Run [] (out, none) (⟨flag, some h, Q⟩ : DSM)
      = (some out, ⟨false, none, (Q.Queue none).2.Dequeue.2⟩,
          [FSMEvent.updateEv h, FSMEvent.onExit h]) := by
    simp [Run, execNested, StateTransitionDeferred]
    rw [hdq]
    simp [StateTransition]
  rw [hrun]
  refine ⟨rfl, rfl, rfl, rfl, ?_, ?_⟩
  · intro script ret
    exact run_halted script ret _ rfl
  · intro v
    rw [enterState_notInProgress v _ rfl]

/-- Witness for C6 at a concrete machine. -/
theorem C6_null_request_halts_witness :
    (Run [] (7, none)
        (⟨false, some 1, CircularBuffer.mkEmpty Ptr 10⟩ : DSM)).1 = some 7 ∧
    (Run [] (7, none)
        (⟨false, some 1, CircularBuffer.mkEmpty Ptr 10⟩ : DSM)).2.1.m_StatePolicy
      = none ∧
    GetFSM_State
        (Run [] (7, none)
          (⟨false, some 1, CircularBuffer.mkEmpty Ptr 10⟩ : DSM)).2.1
      = StateMachineStatus.Halt := by
  have := C6_null_request_halts ⟨false, some 1, CircularBuffer.mkEmpty Ptr 10⟩ 1 7
    rfl (by decide) (by decide)
  exact ⟨this.1, this.2.1, this.2.2.1⟩

/-- C7 counterexample: state 100 is active; its `Update` defers ten
nested `EnterState` requests (filling the queue) and returns the
different handle 200, whose push is dropped.  The active handle does not
stay 100: the `Run` call still drains the oldest queued request, so
state 1 becomes active. -/
theorem C7_counterexample :
    (Run ((List.range 10).map fun i => NestedCall.enterState (some (i + 1)))
        (7, some 200)
        (⟨false, some 100, CircularBuffer.mkEmpty Ptr 10⟩ : DSM)).2.1.m_StatePolicy
      = some 1 ∧
    (Run ((List.range 10).map fun i => NestedCall.enterState (some (i + 1)))
        (7, some 200)
        (⟨false, some 100, CircularBuffer.mkEmpty Ptr 10⟩ : DSM)).2.1.m_StatePolicy
      ≠ some 100 ∧
    FSMEvent.onExit 100 ∈
      (Run ((List.range 10).map fun i => NestedCall.enterState (some (i + 1)))
        (7, some 200)
        (⟨false, some 100, CircularBuffer.mkEmpty Ptr 10⟩ : DSM)).2.2 := by
  refine ⟨by decide, by decide, by decide⟩

/-- C7 (amended): when `Update` returns a different handle and the push
of that handle fails because the deferred queue is full, the requested
handle is silently discarded (the queue keeps its previous contents),
`OnExit` has already fired once on the old state, and the `Run` call
still pops and applies the oldest queued request — the active handle
becomes that queued handle, not the old one and not the requested
one. -/
theorem C7_full_queue_push_dropped (m : DSM) (h n out : Nat)
    (qs rs : List Nat)
    (hp : m.m_StatePolicy = some h)
    (hwf : m.m_DeferredState.WF)
    (hq : m.m_DeferredState.toList = qs.map some)
    (hcap : qs.length + rs.length = 10)
    (hne : n ≠ h) :
    (Run (rs.map fun v => NestedCall.enterState (some v)) (out, some n) m).1
        = some out ∧
    (Run (rs.map fun v => NestedCall.enterState (some v)) (out, some n) m).2.1.m_StatePolicy
        = some ((qs ++ rs).headI) ∧
    (Run (rs.map fun v => NestedCall.enterState (some v)) (out, some n) m).2.1.m_DeferredState.toList
        = ((qs ++ rs).tail).map some ∧
    (Run (rs.map fun v => NestedCall.enterState (some v)) (out, some n) m).2.2
        = [FSMEvent.updateEv h, FSMEvent.onExit h,
            FSMEvent.onEnter ((qs ++ rs).headI)] := by
  have core := run_deferred_core out n h qs rs m hp hwf hq (by omega) hne
  obtain ⟨c1, _, c3, c4, _, c6⟩ := core
  have hpb : pushBounded (qs ++ rs) n = qs ++ rs := by
    rw [pushBounded, if_neg]
    simp
    omega
  rw [hpb] at c3 c4 c6
  exact ⟨c1, c3, c4, c6⟩

/-- Witness for the C7 amended theorem: ten nested submissions fill the
queue, the returned handle 200 is dropped, and state 1 is applied. -/
theorem C7_full_queue_push_dropped_witness :
    (Run ([1, 2, 3, 4, 5, 6, 7, 8, 9, 10].map
          fun v => NestedCall.enterState (some v)) (7, some 200)
        (⟨false, some 100, CircularBuffer.mkEmpty Ptr 10⟩ : DSM)).2.1.m_StatePolicy
      = some 1 ∧
    (Run ([1, 2, 3, 4, 5, 6, 7, 8, 9, 10].map
          fun v => NestedCall.enterState (some v)) (7, some 200)
        (⟨false, some 100, CircularBuffer.mkEmpty Ptr 10⟩ : DSM)).2.2
      = [FSMEvent.updateEv 100, FSMEvent.onExit 100, FSMEvent.onEnter 1] := by
  have := C7_full_queue_push_dropped
    ⟨false, some 100, CircularBuffer.mkEmpty Ptr 10⟩ 100 200 7 []
    [1, 2, 3, 4, 5, 6, 7, 8, 9, 10] rfl (by decide) (by decide) (by decide)
    (by decide)
  exact ⟨this.2.1, this.2.2.2⟩

/-- C8: calling `Run` while the machine is halted returns before touching
the deferred queue: the output is absent and any pending transition
requests stay queued, with the queue contents and size unchanged. -/
theorem C8_halted_run_leaves_queue (script : List NestedCall) (ret : Nat × Ptr)
    (m : DSM) (hp : m.m_StatePolicy = none) :
    Run script ret m = (none, { m with m_InProgress := false }, []) ∧
    (Run script ret m).2.1.m_DeferredState = m.m_DeferredState ∧
    (Run script ret m).2.1.m_DeferredState.toList = m.m_DeferredState.toList ∧
    (Run script ret m).2.1.m_DeferredState.m_Size = m.m_DeferredState.m_Size ∧
    GetFSM_State m = StateMachineStatus.Halt := by
  have hrun := run_halted script ret m hp
  refine ⟨hrun, ?_, ?_, ?_, by simp [GetFSM_State, hp]⟩
  · rw [hrun]
  · rw [hrun]
  · rw [hrun]

/-- Witness for C8 at a halted machine with a pending queued request. -/
theorem C8_halted_run_leaves_queue_witness :
    Run [] (3, some 4)
        (⟨false, none,
          ⟨[some 5, none, none, none, none, none, none, none, none, none],
            0, 1, 1⟩⟩ : DSM)
      = (none,
          ⟨false, none,
            ⟨[some 5, none, none, none, none, none, none, none, none, none],
              0, 1, 1⟩⟩, []) ∧
    (Run [] (3, some 4)
        (⟨false, none,
          ⟨[some 5, none, none, none, none, none, none, none, none, none],
            0, 1, 1⟩⟩ : DSM)).2.1.m_DeferredState.m_Size = 1 := by
  have := C8_halted_run_leaves_queue [] (3, some 4)
    ⟨false, none,
      ⟨[some 5, none, none, none, none, none, none, none, none, none], 0, 1, 1⟩⟩
    rfl
  exact ⟨this.1, by rw [this.2.2.2.1]⟩

end StateMachine

/-- C9: for every major in 0..63, minor in 0..1023 and patch in 0..65535,
decoding the 32-bit value produced by `SetVersion(major, minor, patch)`
recovers the original fields: `GetMajor`, `GetMinor` and `GetPatch`
return `major`, `minor` and `patch` respectively. -/
theorem C9_version_roundtrip (major minor patch : Nat)
    (hM : major ≤ 63) (hm : minor ≤ 1023) (hp : patch ≤ 65535) :
    ra_version.GetMajor (ra_version.SetVersion major minor patch) = major ∧
    ra_version.GetMinor (ra_version.SetVersion major minor patch) = minor ∧
    ra_version.GetPatch (ra_version.SetVersion major minor patch) = patch := by
  have hset := ra_version.SetVersion_eq_add major minor patch hM hm hp
  have hMM : ra_version.MajorMask = 2 ^ 6 - 1 := by decide
  have hmm : ra_version.MinorMask = 2 ^ 10 - 1 := by decide
  have hPMv : ra_version.PatchMask = 2 ^ 16 - 1 := by decide
  refine ⟨?_, ?_, ?_⟩
  · simp only [ra_version.GetMajor, ra_version.MajorShift]
    rw [hset, hMM, Nat.shiftRight_eq_div_pow, Nat.and_pow_two_sub_one_eq_mod]
    omega
  · simp only [ra_version.GetMinor, ra_version.MinorShift]
    rw [hset, hmm, Nat.shiftRight_eq_div_pow, Nat.and_pow_two_sub_one_eq_mod]
    omega
  · simp only [ra_version.GetPatch]
    rw [hset, hPMv, Nat.and_pow_two_sub_one_eq_mod]
    omega

/-- Witness for C9 at a concrete triple. -/
theorem C9_version_roundtrip_witness :
    ra_version.GetMajor (ra_version.SetVersion 5 7 9) = 5 ∧
    ra_version.GetMinor (ra_version.SetVersion 5 7 9) = 7 ∧
    ra_version.GetPatch (ra_version.SetVersion 5 7 9) = 9 :=
  C9_version_roundtrip 5 7 9 (by decide) (by decide) (by decide)

/-- C10 counterexample: in the second `CachedBuffer` variant, a `Store`
call whose flush callback consumes only 1 of the 3 cached bytes (a
failure to consume the cached bytes) still returns `true`, not `false`
as the claim states. -/
theorem C10_counterexample :
    (CachedV2.Store
        (fun data => if data = [10, 20, 30] then 1 else data.length)
        [7, 8] ⟨[10, 20, 30, 0], 3⟩).1 = true ∧
    (fun data => if data = [10, 20, 30] then 1 else data.length)
        ((⟨[10, 20, 30, 0], 3⟩ : Cached.CB).m_Buffer.take
          (⟨[10, 20, 30, 0], 3⟩ : Cached.CB).m_BufferOffset) ≠
      (⟨[10, 20, 30, 0], 3⟩ : Cached.CB).m_BufferOffset := by
  constructor
  · rfl
  · decide

/-- C10 (amended): when the store callback fails on the cached bytes, no
unflushed cached byte is discarded, but the returned flag depends on the
variant.  First variant: any reported count other than the cached size
makes `Store` return `false` with buffer and offset unchanged.  Second
variant: `Store` returns `false` (cache unchanged) only when the callback
consumes zero bytes; on a partial write the unconsumed cached bytes are
kept, shifted to the front of the buffer, and the `Store` call proceeds
and returns `true`. -/
theorem C10_store_failure_preserves_cache :
    (∀ (cb : Cached.Cb) (Data : List Nat) (b : Cached.CB),
      b.m_BufferOffset ≠ 0 →
      (Data.length > b.m_Buffer.length ∨
        Data.length > b.m_Buffer.length - b.m_BufferOffset) →
      cb (b.m_Buffer.take b.m_BufferOffset) ≠ b.m_BufferOffset →
      CachedV1.Store cb Data b = (false, b)) ∧
    (∀ (cb : Cached.Cb) (Data : List Nat) (b : Cached.CB),
      b.m_BufferOffset ≠ 0 →
      (Data.length > b.m_Buffer.length ∨
        Data.length > b.m_Buffer.length - b.m_BufferOffset) →
      cb (b.m_Buffer.take b.m_BufferOffset) = 0 →
      CachedV2.Store cb Data b = (false, b)) ∧
    (∀ (cb : Cached.Cb) (Data : List Nat) (b : Cached.CB),
      0 < cb (b.m_Buffer.take b.m_BufferOffset) →
      cb (b.m_Buffer.take b.m_BufferOffset) < b.m_BufferOffset →
      b.m_BufferOffset ≤ b.m_Buffer.length →
      Data.length ≤ b.m_Buffer.length →
      b.m_Buffer.length - b.m_BufferOffset < Data.length →
      (CachedV2.Store cb Data b).1 = true ∧
      (CachedV2.Store cb Data b).2.m_Buffer.take
          (b.m_BufferOffset - cb (b.m_Buffer.take b.m_BufferOffset))
        = (b.m_Buffer.take b.m_BufferOffset).drop
            (cb (b.m_Buffer.take b.m_BufferOffset)) ∧
      (CachedV2.Store cb Data b).2.m_BufferOffset
        = (b.m_BufferOffset - cb (b.m_Buffer.take b.m_BufferOffset))
            + Data.length) := by
  refine ⟨?_, ?_, ?_⟩
  · intro cb Data b h0 hforce hne
    have hE : CachedV1.EmptyBufferCache cb b = (false, b) := by
      simp [CachedV1.EmptyBufferCache, h0, hne]
    by_cases hbig : Data.length > b.m_Buffer.length
    · simp [CachedV1.Store, hbig, hE]
    · have hsp : Data.length > b.m_Buffer.length - b.m_BufferOffset := by
        rcases hforce with hforce | hforce
        · exact absurd hforce hbig
        · exact hforce
      simp [CachedV1.Store, hbig, hsp, hE]
  · intro cb Data b h0 hforce hw0
    have hE : CachedV2.EmptyBufferCache cb b = (false, b) := by
      simp [CachedV2.EmptyBufferCache, h0, hw0]
    by_cases hbig : Data.length > b.m_Buffer.length
    · simp [CachedV2.Store, hbig, hE]
    · have hsp : Data.length > b.m_Buffer.length - b.m_BufferOffset := by
        rcases hforce with hforce | hforce
        · exact absurd hforce hbig
        · exact hforce
      simp [CachedV2.Store, hbig, hsp, hE]
  · intro cb Data b hwpos hwlt hoff hfits hsp
    set w := cb (b.m_Buffer.take b.m_BufferOffset) with hw
    set left := b.m_BufferOffset - w with hleft
    have h0 : b.m_BufferOffset ≠ 0 := by omega
    have hw0 : w ≠ 0 := by omega
    have hE : CachedV2.EmptyBufferCache cb b =
        (true,
          ⟨(b.m_Buffer.drop w).take left ++ b.m_Buffer.drop left, left⟩) := by
      simp [CachedV2.EmptyBufferCache, h0, ← hw, hw0, ← hleft]
    have hbig : ¬ Data.length > b.m_Buffer.length := by omega
    have hsp' : Data.length > b.m_Buffer.length - b.m_BufferOffset := hsp
    have hstore : CachedV2.Store cb Data b =
        (true,
          ⟨Cached.memcpyAt
              ((b.m_Buffer.drop w).take left ++ b.m_Buffer.drop left) left Data,
            left + Data.length⟩) := by
      simp [CachedV2.Store, hbig, hsp', hE]
    rw [hstore]
    refine ⟨rfl, ?_, rfl⟩
    have hlena : ((b.m_Buffer.drop w).take left).length = left := by
      simp [List.length_take, List.length_drop]
      omega
    have hbase : ((b.m_Buffer.drop w).take left ++ b.m_Buffer.drop left).take left
        = (b.m_Buffer.drop w).take left :=
      List.take_left' hlena
    rw [Cached.memcpyAt, hbase, List.append_assoc, List.take_left' hlena]
    rw [List.take_drop, show w + left = b.m_BufferOffset from by omega]

/-- Witness for the C10 amended theorem: each conjunct applied at a
concrete buffer, callback and data span. -/
theorem C10_store_failure_preserves_cache_witness :
    CachedV1.Store (fun _ => 1) [7, 8] ⟨[10, 20, 30, 0], 3⟩ =
      (false, ⟨[10, 20, 30, 0], 3⟩) ∧
    CachedV2.Store (fun _ => 0) [7, 8] ⟨[10, 20, 30, 0], 3⟩ =
      (false, ⟨[10, 20, 30, 0], 3⟩) ∧
    (CachedV2.Store (fun data => if data = [10, 20, 30] then 1 else data.length)
        [7, 8] ⟨[10, 20, 30, 0], 3⟩).1 = true := by
  refine ⟨?_, ?_, ?_⟩
  · exact C10_store_failure_preserves_cache.1 (fun _ => 1) [7, 8]
      ⟨[10, 20, 30, 0], 3⟩ (by decide) (by right; decide) (by decide)
  · exact C10_store_failure_preserves_cache.2.1 (fun _ => 0) [7, 8]
      ⟨[10, 20, 30, 0], 3⟩ (by decide) (by right; decide) (by decide)
  · exact (C10_store_failure_preserves_cache.2.2
      (fun data => if data = [10, 20, 30] then 1 else data.length) [7, 8]
      ⟨[10, 20, 30, 0], 3⟩ (by decide) (by decide) (by decide) (by decide)
      (by decide)).1

end Bricks
